import Mathlib

/-!
Verification development for the CLI chess program (`cli_chess.py`).

The visible source is a thin interactive shell that delegates the chess
rules to an external rules engine (board representation, legal-move
generation, check detection, notation codecs, draw bookkeeping).  The
engine itself is not part of the repository's source tree, so following
the specification document it is modelled here from the spec's own words
(definitions carrying a `Modelled from the spec:` doc comment).  The
command-dispatch logic that *is* in `cli_chess.py` (SAN-then-UCI move
interpretation, undo, load-replace, the post-move outcome report chain,
PGN save/load plumbing) is embedded directly from that file.
-/

namespace CliChess

/-- Modelled from the spec: piece colors (§3 Piece). -/
inductive Color where
  | white
  | black
deriving DecidableEq, Repr

/-- Opponent of a color. -/
def Color.other : Color → Color
  | .white => .black
  | .black => .white

/-- Modelled from the spec: the six piece types (§3 Piece). -/
inductive PieceType where
  | pawn
  | knight
  | bishop
  | rook
  | queen
  | king
deriving DecidableEq, Repr

/-- Modelled from the spec: a piece is a type together with a color (§3). -/
structure Piece where
  color : Color
  ptype : PieceType
deriving DecidableEq, Repr

/-- Modelled from the spec: the board is a partial mapping from the 64
squares to pieces (§3).  Squares are numbered `rank * 8 + file` with
`a1 = 0`; the list has one entry per square. -/
abbrev Board : Type := List (Option Piece)

/-- Piece on a square (out-of-range squares are empty). -/
def pieceAt (b : Board) (sq : Nat) : Option Piece :=
  b.getD sq none

/-- Replace the content of a square. -/
def setAt (b : Board) (sq : Nat) (p : Option Piece) : Board :=
  b.set sq p

/-- Modelled from the spec: a Position value (§3): board, side to move,
the four castling-rights booleans, optional en-passant target square,
halfmove clock and fullmove number. -/
structure Position where
  board : Board
  sideToMove : Color
  castleWK : Bool
  castleWQ : Bool
  castleBK : Bool
  castleBQ : Bool
  enPassantTarget : Option Nat
  halfmoveClock : Nat
  fullmoveNumber : Nat
deriving DecidableEq

/-- Modelled from the spec: a Move is a source square, a destination
square and an optional promotion piece type (§3); its flags (capture,
en passant, castling) are derived from the Position, never stored. -/
structure Move where
  fromSq : Nat
  toSq : Nat
  promotion : Option PieceType
deriving DecidableEq, Repr

/-- File index (0..7) of a square, as an integer. -/
def fileZ (sq : Nat) : Int := ((sq % 8 : Nat) : Int)

/-- Rank index (0..7) of a square, as an integer. -/
def rankZ (sq : Nat) : Int := ((sq / 8 : Nat) : Int)

/-- Build a square number from integer file/rank coordinates, failing
when the coordinates fall off the board. -/
def mkSq (f r : Int) : Option Nat :=
  if 0 ≤ f ∧ f < 8 ∧ 0 ≤ r ∧ r < 8 then some (r.toNat * 8 + f.toNat) else none

/-- Knight leap offsets (file delta, rank delta). -/
def knightOffsets : List (Int × Int) :=
  [(1, 2), (2, 1), (2, -1), (1, -2), (-1, -2), (-2, -1), (-2, 1), (-1, 2)]

/-- King step offsets. -/
def kingOffsets : List (Int × Int) :=
  [(1, 0), (1, 1), (0, 1), (-1, 1), (-1, 0), (-1, -1), (0, -1), (1, -1)]

/-- Rook ray directions. -/
def rookDirs : List (Int × Int) := [(1, 0), (-1, 0), (0, 1), (0, -1)]

/-- Bishop ray directions. -/
def bishopDirs : List (Int × Int) := [(1, 1), (1, -1), (-1, 1), (-1, -1)]

/-- Forward rank direction of a color's pawns. -/
def pawnDir : Color → Int
  | .white => 1
  | .black => -1

/-- Rank on which a color's pawns start (may double-push from there). -/
def pawnStartRank : Color → Int
  | .white => 1
  | .black => 6

/-- Rank a color's pawns promote on. -/
def promoRank : Color → Int
  | .white => 7
  | .black => 0

/-- First piece encountered walking from (f, r) in direction (df, dr),
with a fuel bound (7 steps suffice on an 8×8 board). -/
def firstPieceOnRay (b : Board) (f r df dr : Int) : Nat → Option Piece
  | 0 => none
  | fuel + 1 =>
    match mkSq (f + df) (r + dr) with
    | none => none
    | some t =>
      match pieceAt b t with
      | some p => some p
      | none => firstPieceOnRay b (f + df) (r + dr) df dr fuel

/-- Modelled from the spec: `isInCheck`-style attack test (§4.1): does
any piece of color `byC` pseudo-legally attack square `t`? -/
def attacked (b : Board) (byC : Color) (t : Nat) : Bool :=
  let f := fileZ t
  let r := rankZ t
  let pawnHit := ([-1, 1] : List Int).any fun df =>
    match mkSq (f + df) (r - pawnDir byC) with
    | some s => decide (pieceAt b s = some ⟨byC, .pawn⟩)
    | none => false
  let leapHit (offs : List (Int × Int)) (pt : PieceType) : Bool :=
    offs.any fun d =>
      match mkSq (f + d.1) (r + d.2) with
      | some s => decide (pieceAt b s = some ⟨byC, pt⟩)
      | none => false
  let slideHit (dirs : List (Int × Int)) (pt : PieceType) : Bool :=
    dirs.any fun d =>
      match firstPieceOnRay b f r d.1 d.2 8 with
      | some p => decide (p = ⟨byC, pt⟩ ∨ p = ⟨byC, .queen⟩)
      | none => false
  pawnHit || leapHit knightOffsets .knight || leapHit kingOffsets .king ||
    slideHit rookDirs .rook || slideHit bishopDirs .bishop

/-- Square of the king of a color, if present. -/
def kingSquare (b : Board) (c : Color) : Option Nat :=
  (List.range 64).find? fun sq => decide (pieceAt b sq = some ⟨c, .king⟩)

/-- Modelled from the spec: `isInCheck(position, color)` (§4.1): true iff
an opposing piece's pseudo-legal attack set includes the color's king
square. -/
def inCheck (pos : Position) (c : Color) : Bool :=
  match kingSquare pos.board c with
  | some k => attacked pos.board c.other k
  | none => false

/-- Expand a pawn arrival square into the four promotion moves when it
lies on the promotion rank, else into the single non-promoting move
(§4.2: all four promotion pieces must be reachable). -/
def promoExpand (c : Color) (sq t : Nat) : List Move :=
  if rankZ t = promoRank c then
    [⟨sq, t, some .queen⟩, ⟨sq, t, some .rook⟩, ⟨sq, t, some .bishop⟩, ⟨sq, t, some .knight⟩]
  else [⟨sq, t, none⟩]

/-- Is there a piece of the side to move on the square? -/
def friendAt (pos : Position) (sq : Nat) : Bool :=
  match pieceAt pos.board sq with
  | some p => decide (p.color = pos.sideToMove)
  | none => false

/-- Is there a piece of the opponent on the square? -/
def enemyAt (pos : Position) (sq : Nat) : Bool :=
  match pieceAt pos.board sq with
  | some p => decide (p.color ≠ pos.sideToMove)
  | none => false

/-- Modelled from the spec: pawn pseudo-legal moves (§4.2): single and
double pushes respecting blocked squares, diagonal captures, en-passant
capture when the target matches, promotions enumerated. -/
def pawnMoves (pos : Position) (sq : Nat) : List Move :=
  let c := pos.sideToMove
  let d := pawnDir c
  let f := fileZ sq
  let r := rankZ sq
  let pushes :=
    match mkSq f (r + d) with
    | none => []
    | some t1 =>
      if (pieceAt pos.board t1).isSome then []
      else
        promoExpand c sq t1 ++
          (if r = pawnStartRank c then
            match mkSq f (r + 2 * d) with
            | none => []
            | some t2 => if (pieceAt pos.board t2).isSome then [] else [⟨sq, t2, none⟩]
          else [])
  let caps := ([-1, 1] : List Int).flatMap fun df =>
    match mkSq (f + df) (r + d) with
    | none => []
    | some t => if enemyAt pos t || decide (pos.enPassantTarget = some t) then promoExpand c sq t else []
  pushes ++ caps

/-- Pseudo-legal moves of a leaping piece (knight or king step). -/
def leapMoves (pos : Position) (sq : Nat) (offs : List (Int × Int)) : List Move :=
  offs.filterMap fun dd =>
    match mkSq (fileZ sq + dd.1) (rankZ sq + dd.2) with
    | none => none
    | some t => if friendAt pos t then none else some ⟨sq, t, none⟩

/-- Pseudo-legal moves of a sliding piece along one ray: advance until
blocked, including an enemy-occupied square, excluding a friendly one. -/
def ray (pos : Position) (sq : Nat) (f r df dr : Int) : Nat → List Move
  | 0 => []
  | fuel + 1 =>
    match mkSq (f + df) (r + dr) with
    | none => []
    | some t =>
      match pieceAt pos.board t with
      | none => ⟨sq, t, none⟩ :: ray pos sq (f + df) (r + dr) df dr fuel
      | some p => if p.color = pos.sideToMove then [] else [⟨sq, t, none⟩]

/-- Pseudo-legal moves of a sliding piece over a set of directions. -/
def slideMoves (pos : Position) (sq : Nat) (dirs : List (Int × Int)) : List Move :=
  dirs.flatMap fun d => ray pos sq (fileZ sq) (rankZ sq) d.1 d.2 8

/-- Modelled from the spec: castling candidate generation (§4.2): the
relevant rights bit is set, all squares strictly between king and rook
are empty, the king is not currently in check, and the king neither
passes through nor lands on a square attacked by the opponent (the
rook's transit square is not required to be unattacked). -/
def castleMoves (pos : Position) (sq : Nat) : List Move :=
  let b := pos.board
  let enemy := pos.sideToMove.other
  (if pos.sideToMove = .white ∧ sq = 4 then
    (if pos.castleWK ∧ pieceAt b 5 = none ∧ pieceAt b 6 = none ∧
        attacked b enemy 4 = false ∧ attacked b enemy 5 = false ∧ attacked b enemy 6 = false then
      [⟨4, 6, none⟩]
    else []) ++
    (if pos.castleWQ ∧ pieceAt b 1 = none ∧ pieceAt b 2 = none ∧ pieceAt b 3 = none ∧
        attacked b enemy 4 = false ∧ attacked b enemy 3 = false ∧ attacked b enemy 2 = false then
      [⟨4, 2, none⟩]
    else [])
  else []) ++
  (if pos.sideToMove = .black ∧ sq = 60 then
    (if pos.castleBK ∧ pieceAt b 61 = none ∧ pieceAt b 62 = none ∧
        attacked b enemy 60 = false ∧ attacked b enemy 61 = false ∧ attacked b enemy 62 = false then
      [⟨60, 62, none⟩]
    else []) ++
    (if pos.castleBQ ∧ pieceAt b 57 = none ∧ pieceAt b 58 = none ∧ pieceAt b 59 = none ∧
        attacked b enemy 60 = false ∧ attacked b enemy 59 = false ∧ attacked b enemy 58 = false then
      [⟨60, 58, none⟩]
    else [])
  else [])

/-- Pseudo-legal moves of the piece of the given type standing on `sq`. -/
def pieceMoves (pos : Position) (sq : Nat) : PieceType → List Move
  | .pawn => pawnMoves pos sq
  | .knight => leapMoves pos sq knightOffsets
  | .bishop => slideMoves pos sq bishopDirs
  | .rook => slideMoves pos sq rookDirs
  | .queen => slideMoves pos sq (bishopDirs ++ rookDirs)
  | .king => leapMoves pos sq kingOffsets ++ castleMoves pos sq

/-- Pseudo-legal moves from one square (empty squares and enemy pieces
contribute nothing). -/
def movesFrom (pos : Position) (sq : Nat) : List Move :=
  match pieceAt pos.board sq with
  | none => []
  | some pc => if pc.color = pos.sideToMove then pieceMoves pos sq pc.ptype else []

/-- Modelled from the spec: phase one of the move generator (§4.2),
pseudo-legal generation over the whole board. -/
def pseudoLegalMoves (pos : Position) : List Move :=
  (List.range 64).flatMap (movesFrom pos)

/-- Piece type standing on the source square of a move. -/
def pieceTypeAt (pos : Position) (sq : Nat) : Option PieceType :=
  (pieceAt pos.board sq).map Piece.ptype

/-- Derived flag (§3): the move moves a pawn of the side to move. -/
def isPawnFrom (pos : Position) (m : Move) : Bool :=
  decide (pieceAt pos.board m.fromSq = some ⟨pos.sideToMove, .pawn⟩)

/-- Derived flag (§3): en-passant capture — a pawn moving diagonally
onto the current en-passant target square. -/
def isEpMove (pos : Position) (m : Move) : Bool :=
  isPawnFrom pos m && decide (pos.enPassantTarget = some m.toSq) &&
    !(decide (m.fromSq % 8 = m.toSq % 8))

/-- Derived flag (§3): the move captures, directly or en passant. -/
def isCaptureMove (pos : Position) (m : Move) : Bool :=
  (pieceAt pos.board m.toSq).isSome || isEpMove pos m

/-- Derived flag (§3): kingside castling — the king moves two files
toward the h-file along its rank. -/
def isCastleKMove (pos : Position) (m : Move) : Bool :=
  decide (pieceTypeAt pos m.fromSq = some .king) &&
    decide (m.toSq % 8 = m.fromSq % 8 + 2) && decide (m.toSq / 8 = m.fromSq / 8)

/-- Derived flag (§3): queenside castling — the king moves two files
toward the a-file along its rank. -/
def isCastleQMove (pos : Position) (m : Move) : Bool :=
  decide (pieceTypeAt pos m.fromSq = some .king) &&
    decide (m.toSq % 8 + 2 = m.fromSq % 8) && decide (m.toSq / 8 = m.fromSq / 8)

/-- Modelled from the spec: the Position transition of `apply` (§4.1):
piece relocation, capture removal, en-passant removal of the passed-over
pawn, castling relocating both king and rook, promotion replacement,
castling-rights update, en-passant target, halfmove clock, fullmove
number and side to move. -/
def applyMove (pos : Position) (m : Move) : Position :=
  let stm := pos.sideToMove
  let b0 := pos.board
  let moving := pieceAt b0 m.fromSq
  let placed : Option Piece :=
    match m.promotion with
    | some t => some ⟨stm, t⟩
    | none => moving
  let b1 := setAt b0 m.fromSq none
  let b2 := if isEpMove pos m then setAt b1 ((m.fromSq / 8) * 8 + m.toSq % 8) none else b1
  let b3 :=
    if isCastleKMove pos m then
      setAt (setAt b2 (m.fromSq + 3) none) (m.fromSq + 1) (some ⟨stm, .rook⟩)
    else if isCastleQMove pos m then
      setAt (setAt b2 (m.fromSq - 4) none) (m.fromSq - 1) (some ⟨stm, .rook⟩)
    else b2
  let b4 := setAt b3 m.toSq placed
  { board := b4
    sideToMove := stm.other
    castleWK := pos.castleWK && !(decide (m.fromSq = 4)) && !(decide (m.fromSq = 7)) && !(decide (m.toSq = 7))
    castleWQ := pos.castleWQ && !(decide (m.fromSq = 4)) && !(decide (m.fromSq = 0)) && !(decide (m.toSq = 0))
    castleBK := pos.castleBK && !(decide (m.fromSq = 60)) && !(decide (m.fromSq = 63)) && !(decide (m.toSq = 63))
    castleBQ := pos.castleBQ && !(decide (m.fromSq = 60)) && !(decide (m.fromSq = 56)) && !(decide (m.toSq = 56))
    enPassantTarget :=
      if isPawnFrom pos m ∧ (m.toSq = m.fromSq + 16 ∨ m.fromSq = m.toSq + 16) then
        some ((m.fromSq + m.toSq) / 2)
      else none
    halfmoveClock :=
      if isPawnFrom pos m || isCaptureMove pos m then 0 else pos.halfmoveClock + 1
    fullmoveNumber :=
      if stm = .black then pos.fullmoveNumber + 1 else pos.fullmoveNumber }

/-- Modelled from the spec: phase two of the move generator (§4.2), the
legality filter — a pseudo-legal move is legal iff after hypothetically
applying it the moving side's own king is not in check. -/
def legalMoves (pos : Position) : List Move :=
  (pseudoLegalMoves pos).filter fun m => !(inCheck (applyMove pos m) pos.sideToMove)

/-- Modelled from the spec (§4.4): no legal moves while in check. -/
def isCheckmate (pos : Position) : Bool :=
  (legalMoves pos).isEmpty && inCheck pos pos.sideToMove

/-- Modelled from the spec (§4.4): no legal moves while not in check. -/
def isStalemate (pos : Position) : Bool :=
  (legalMoves pos).isEmpty && !(inCheck pos pos.sideToMove)

/-- All non-king pieces on the board, with their squares. -/
def nonKingPieces (b : Board) : List (Nat × Piece) :=
  (List.range 64).filterMap fun sq =>
    match pieceAt b sq with
    | some p => if p.ptype = .king then none else some (sq, p)
    | none => none

/-- Color class (light/dark) of a square. -/
def squareShade (sq : Nat) : Nat := (sq % 8 + sq / 8) % 2

/-- Is the piece type a minor piece? -/
def isMinor (t : PieceType) : Bool := decide (t = .knight) || decide (t = .bishop)

/-- Modelled from the spec (§4.4): insufficient material — K vs K,
K + single minor vs K, or K + bishop vs K + bishop with same-shade
bishops only. -/
def insufficientMaterial (pos : Position) : Bool :=
  match nonKingPieces pos.board with
  | [] => true
  | [(_, p)] => isMinor p.ptype
  | [(s1, p1), (s2, p2)] =>
    decide (p1.ptype = .bishop) && decide (p2.ptype = .bishop) &&
      decide (p1.color ≠ p2.color) && decide (squareShade s1 = squareShade s2)
  | _ => false

/-- Modelled from the spec (§4.4): the fifty-move rule becomes claimable
at a halfmove clock of at least 100. -/
def canClaimFiftyMoves (pos : Position) : Bool :=
  decide (100 ≤ pos.halfmoveClock)

/-- Fields that identify a position for repetition purposes. -/
structure RepKey where
  board : Board
  sideToMove : Color
  castleWK : Bool
  castleWQ : Bool
  castleBK : Bool
  castleBQ : Bool
  enPassantTarget : Option Nat
deriving DecidableEq

/-- Repetition key of a Position (§4.4): piece placement, side to move,
castling rights and en-passant target; the clocks are ignored. -/
def repKey (pos : Position) : RepKey :=
  ⟨pos.board, pos.sideToMove, pos.castleWK, pos.castleWQ, pos.castleBK, pos.castleBQ,
    pos.enPassantTarget⟩

/-- Modelled from the spec (§4.4): threefold repetition is claimable
when the current Position's repetition key occurs three or more times
across the retained snapshots. -/
def canClaimThreefold (pos : Position) (snaps : List Position) : Bool :=
  decide (3 ≤ (snaps.filter fun q => decide (repKey q = repKey pos)).length)

/-- Modelled from the spec: the GameResultDetector classification (§4.4). -/
inductive Outcome where
  | checkmate (winner : Color)
  | stalemate
  | drawInsufficientMaterial
  | drawFiftyMoveClaimable
  | drawThreefoldClaimable
  | ongoing
deriving DecidableEq, Repr

/-- Modelled from the spec: GameResultDetector (§4.4), evaluated on the
current Position plus the retained snapshots, in the spec's order. -/
def detectOutcome (pos : Position) (snaps : List Position) : Outcome :=
  if isCheckmate pos then .checkmate pos.sideToMove.other
  else if isStalemate pos then .stalemate
  else if insufficientMaterial pos then .drawInsufficientMaterial
  else if canClaimFiftyMoves pos then .drawFiftyMoveClaimable
  else if canClaimThreefold pos snaps then .drawThreefoldClaimable
  else .ongoing

/-- Modelled from the spec (§4.4, §4.5): the automatic game-over test —
only Checkmate, Stalemate and DrawInsufficientMaterial are automatic
terminal states (`board.is_game_over()` in `save_pgn`). -/
def isGameOver (pos : Position) : Bool :=
  isCheckmate pos || isStalemate pos || insufficientMaterial pos

/-- Modelled from the spec (§4.5) and `save_pgn` line 77: the PGN Result
token — the game score on automatic termination, `*` otherwise. -/
def resultToken (pos : Position) : String :=
  if isGameOver pos then
    if isCheckmate pos then
      if pos.sideToMove = .white then "0-1" else "1-0"
    else "1/2-1/2"
  else "*"

/-- The standard initial chess position (`chess.Board()` in `main`). -/
def startBoard : Board :=
  [some ⟨.white, .rook⟩, some ⟨.white, .knight⟩, some ⟨.white, .bishop⟩, some ⟨.white, .queen⟩,
   some ⟨.white, .king⟩, some ⟨.white, .bishop⟩, some ⟨.white, .knight⟩, some ⟨.white, .rook⟩] ++
  List.replicate 8 (some ⟨.white, .pawn⟩) ++
  List.replicate 32 none ++
  List.replicate 8 (some ⟨.black, .pawn⟩) ++
  [some ⟨.black, .rook⟩, some ⟨.black, .knight⟩, some ⟨.black, .bishop⟩, some ⟨.black, .queen⟩,
   some ⟨.black, .king⟩, some ⟨.black, .bishop⟩, some ⟨.black, .knight⟩, some ⟨.black, .rook⟩]

/-- The initial Position. -/
def startPos : Position :=
  { board := startBoard
    sideToMove := .white
    castleWK := true
    castleWQ := true
    castleBK := true
    castleBQ := true
    enPassantTarget := none
    halfmoveClock := 0
    fullmoveNumber := 1 }

instance {ε α : Type} [DecidableEq ε] [DecidableEq α] : DecidableEq (Except ε α) := fun a b =>
  match a, b with
  | .error e, .error f => decidable_of_iff (e = f) (by simp)
  | .ok x, .ok y => decidable_of_iff (x = y) (by simp)
  | .error _, .ok _ => .isFalse fun h => Except.noConfusion h
  | .ok _, .error _ => .isFalse fun h => Except.noConfusion h

/-- Modelled from the spec: the error taxonomy (§7). -/
inductive MoveError where
  | parseError
  | illegalMove
  | ambiguousMove
  | noHistory
deriving DecidableEq, Repr

/-- Modelled from the spec: a GameSession (§3) owns the initial Position
plus the ordered sequence of (Move, resulting Position) pairs; Position
snapshots are retained for repetition counting and undo. -/
structure GameSession where
  initial : Position
  history : List (Move × Position)
deriving DecidableEq

/-- Modelled from the spec: `GameSession.current()` (§6), the Position
after the last applied move (the initial Position when none). -/
def GameSession.current (s : GameSession) : Position :=
  match s.history.getLast? with
  | some mp => mp.2
  | none => s.initial

/-- The retained Position snapshots (initial plus one per ply). -/
def GameSession.snapshots (s : GameSession) : List Position :=
  s.initial :: s.history.map Prod.snd

/-- Append one legal move's transition to the history. -/
def GameSession.push (s : GameSession) (m : Move) : GameSession :=
  ⟨s.initial, s.history ++ [(m, applyMove s.current m)]⟩

/-- Modelled from the spec: `apply(session, move)` (§4.1): requires the
move to be a member of the current Position's legal moves; otherwise it
fails with IllegalMove and the session is left unchanged (the error
branch returns no new session). -/
def GameSession.applyMv (s : GameSession) (m : Move) : Except MoveError GameSession :=
  if m ∈ legalMoves s.current then .ok (s.push m) else .error .illegalMove

/-- Modelled from the spec: `undo(session)` (§4.1) and `main` lines
136-143: fails with NoHistory when the history is empty, otherwise
truncates the history by one ply, restoring the prior snapshot. -/
def GameSession.undo (s : GameSession) : Except MoveError GameSession :=
  match s.history with
  | [] => .error .noHistory
  | _ :: _ => .ok ⟨s.initial, s.history.dropLast⟩

/-- The session at program start (`board = chess.Board()` in `main`). -/
def startSession : GameSession := ⟨startPos, []⟩

/-- Does each history entry record a legal move and its resulting
Position? -/
def validFrom : Position → List (Move × Position) → Bool
  | _, [] => true
  | pos, (m, p) :: rest =>
    decide (m ∈ legalMoves pos) && decide (p = applyMove pos m) && validFrom p rest

/-- A session is valid when its history replays legally from its initial
Position with the recorded snapshots. -/
def GameSession.valid (s : GameSession) : Bool :=
  validFrom s.initial s.history

/-- Is the character a file letter a..h? -/
def isFileCh (c : Char) : Bool := decide (97 ≤ c.toNat) && decide (c.toNat ≤ 104)

/-- Is the character a rank digit 1..8? -/
def isRankCh (c : Char) : Bool := decide (49 ≤ c.toNat) && decide (c.toNat ≤ 56)

/-- File letter of a file index. -/
def fileCh (f : Fin 8) : Char := Char.ofNat (97 + f.val)

/-- Rank digit of a rank index. -/
def rankCh (r : Fin 8) : Char := Char.ofNat (49 + r.val)

/-- File index denoted by a character, if any. -/
def fileOfCh (c : Char) : Option (Fin 8) :=
  if h : c.toNat - 97 < 8 then
    if isFileCh c then some ⟨c.toNat - 97, h⟩ else none
  else none

/-- Rank index denoted by a character, if any. -/
def rankOfCh (c : Char) : Option (Fin 8) :=
  if h : c.toNat - 49 < 8 then
    if isRankCh c then some ⟨c.toNat - 49, h⟩ else none
  else none

/-- The two characters naming a square (file letter then rank digit). -/
def squareChars (sq : Nat) : List Char :=
  [Char.ofNat (97 + sq % 8), Char.ofNat (49 + sq / 8 % 8)]

/-- Lower-case UCI letter of a promotion piece type. -/
def promoCharLower : PieceType → Char
  | .queen => 'q'
  | .rook => 'r'
  | .bishop => 'b'
  | .knight => 'n'
  | .pawn => 'p'
  | .king => 'k'

/-- Promotion piece type denoted by a lower-case UCI letter (only the
four legal promotion pieces are valid). -/
def promoOfCharLower (c : Char) : Option PieceType :=
  if c = 'q' then some .queen
  else if c = 'r' then some .rook
  else if c = 'b' then some .bishop
  else if c = 'n' then some .knight
  else none

/-- Modelled from the spec: UCI encoding (§4.3): from-square, to-square,
optional promotion letter. -/
def uciEncode (m : Move) : String :=
  String.mk (squareChars m.fromSq ++ squareChars m.toSq ++
    (match m.promotion with
     | some t => [promoCharLower t]
     | none => []))

/-- Square denoted by a file letter and a rank digit. -/
def sqOfChars (fc rc : Char) : Option Nat :=
  if isFileCh fc && isRankCh rc then some ((rc.toNat - 49) * 8 + (fc.toNat - 97)) else none

/-- Modelled from the spec: UCI decoding (§4.3): pure syntax parsing
that fails with ParseError on malformed text (wrong length, invalid
square letters, invalid promotion letter); legality is the caller's
concern. -/
def uciDecode (str : String) : Except MoveError Move :=
  match str.toList with
  | [a, b, c, d] =>
    match sqOfChars a b, sqOfChars c d with
    | some s1, some s2 => .ok ⟨s1, s2, none⟩
    | _, _ => .error .parseError
  | [a, b, c, d, p] =>
    match sqOfChars a b, sqOfChars c d, promoOfCharLower p with
    | some s1, some s2, some t => .ok ⟨s1, s2, some t⟩
    | _, _, _ => .error .parseError
  | _ => .error .parseError

/-- A parsed SAN move pattern: piece type, optional source file and rank
disambiguation, capture marker, destination square, optional promotion. -/
structure SanPattern where
  sPiece : PieceType
  sFromFile : Option (Fin 8)
  sFromRank : Option (Fin 8)
  sCapture : Bool
  sDestFile : Fin 8
  sDestRank : Fin 8
  sPromo : Option PieceType
deriving DecidableEq, Repr

/-- A SAN token: castling or a normal move pattern. -/
inductive SanMove where
  | castleShort
  | castleLong
  | normal (p : SanPattern)
deriving DecidableEq, Repr

/-- Upper-case SAN letter of a piece type. -/
def pieceLetter : PieceType → Char
  | .pawn => 'P'
  | .knight => 'N'
  | .bishop => 'B'
  | .rook => 'R'
  | .queen => 'Q'
  | .king => 'K'

/-- Piece type denoted by an upper-case SAN letter (no letter is used
for pawns, so 'P' is not accepted). -/
def letterPiece (c : Char) : Option PieceType :=
  if c = 'N' then some .knight
  else if c = 'B' then some .bishop
  else if c = 'R' then some .rook
  else if c = 'Q' then some .queen
  else if c = 'K' then some .king
  else none

/-- Render a SAN pattern (§4.3): piece letter (omitted for pawns),
disambiguation, capture marker, destination, promotion suffix. -/
def renderPattern (p : SanPattern) : List Char :=
  (if p.sPiece = .pawn then [] else [pieceLetter p.sPiece]) ++
  (match p.sFromFile with
   | some f => [fileCh f]
   | none => []) ++
  (match p.sFromRank with
   | some r => [rankCh r]
   | none => []) ++
  (if p.sCapture then ['x'] else []) ++
  [fileCh p.sDestFile, rankCh p.sDestRank] ++
  (match p.sPromo with
   | some t => ['=', pieceLetter t]
   | none => [])

/-- Promotion piece denoted by an upper-case SAN letter (only the four
legal promotion pieces). -/
def promoLetterPiece (c : Char) : Option PieceType :=
  if c = 'Q' then some .queen
  else if c = 'R' then some .rook
  else if c = 'B' then some .bishop
  else if c = 'N' then some .knight
  else none

/-- Parse step (reversed token): optional promotion suffix. -/
def parsePromoR : List Char → Option PieceType × List Char
  | c :: e :: rest =>
    if e = '=' then
      match promoLetterPiece c with
      | some t => (some t, rest)
      | none => (none, c :: e :: rest)
    else (none, c :: e :: rest)
  | l => (none, l)

/-- Parse step (reversed token): optional capture marker. -/
def parseCapR : List Char → Bool × List Char
  | c :: rest => if c = 'x' then (true, rest) else (false, c :: rest)
  | [] => (false, [])

/-- Parse step (reversed token): optional source-rank digit. -/
def parseRankR : List Char → Option (Fin 8) × List Char
  | c :: rest =>
    match rankOfCh c with
    | some x => (some x, rest)
    | none => (none, c :: rest)
  | [] => (none, [])

/-- Parse step (reversed token): optional source-file letter. -/
def parseFileR : List Char → Option (Fin 8) × List Char
  | c :: rest =>
    match fileOfCh c with
    | some x => (some x, rest)
    | none => (none, c :: rest)
  | [] => (none, [])

/-- Parse step: the leading piece letter (nothing left means a pawn). -/
def parseTail (ff : Option (Fin 8)) (fr : Option (Fin 8)) (cap : Bool)
    (df dr : Fin 8) (promo : Option PieceType) : List Char → Option SanPattern
  | [] => some ⟨.pawn, ff, fr, cap, df, dr, promo⟩
  | [c] =>
    match letterPiece c with
    | some t => some ⟨t, ff, fr, cap, df, dr, promo⟩
    | none => none
  | _ => none

/-- Parse a reversed SAN core token into a pattern. -/
def parseRevCore (l : List Char) : Option SanPattern :=
  let pr := parsePromoR l
  match pr.2 with
  | rc :: fc :: l2 =>
    match rankOfCh rc, fileOfCh fc with
    | some dr, some df =>
      let pc := parseCapR l2
      let prr := parseRankR pc.2
      let pff := parseFileR prr.2
      parseTail pff.1 prr.1 pc.1 df dr pr.1 pff.2
    | _, _ => none
  | _ => none

/-- Modelled from the spec: SAN decoding, syntax phase (§4.3): strip a
trailing check or mate mark, recognize castling tokens, otherwise parse
piece type, disambiguation hints, capture marker, destination and
promotion; malformed syntax yields no token. -/
def sanParseTok (str : String) : Option SanMove :=
  let rcs := str.toList.reverse
  let rcore :=
    match rcs with
    | c :: rest => if c = '+' ∨ c = '#' then rest else rcs
    | [] => rcs
  if rcore.reverse = ['O', '-', 'O'] then some .castleShort
  else if rcore.reverse = ['O', '-', 'O', '-', 'O'] then some .castleLong
  else (parseRevCore rcore).map .normal

/-- Does a legal move match a SAN pattern's constraints (§4.3)?  A bare
pattern with no promotion suffix also selects the queen promotion, per
the default-to-Queen rule of §4.1. -/
def matchesPattern (pos : Position) (p : SanPattern) (m : Move) : Bool :=
  decide (pieceTypeAt pos m.fromSq = some p.sPiece) &&
  (match p.sFromFile with
   | some f => decide (m.fromSq % 8 = f.val)
   | none => true) &&
  (match p.sFromRank with
   | some r => decide (m.fromSq / 8 = r.val)
   | none => true) &&
  decide (p.sCapture = isCaptureMove pos m) &&
  decide (m.toSq = p.sDestRank.val * 8 + p.sDestFile.val) &&
  (match p.sPromo with
   | some t => decide (m.promotion = some t)
   | none => decide (m.promotion = none) || decide (m.promotion = some PieceType.queen))

/-- Select the unique matching legal move: none matching is IllegalMove,
several distinct matching moves is AmbiguousMove (§4.3 — ambiguity is
surfaced, never silently resolved). -/
def pickUnique (l : List Move) : Except MoveError Move :=
  match l.dedup with
  | [] => .error .illegalMove
  | [m] => .ok m
  | _ => .error .ambiguousMove

/-- Modelled from the spec: SAN decoding (§4.3): parse the token, then
select the unique legal move in the current Position matching all given
constraints. -/
def sanDecode (pos : Position) (str : String) : Except MoveError Move :=
  match sanParseTok str with
  | none => .error .parseError
  | some .castleShort => pickUnique ((legalMoves pos).filter fun m => isCastleKMove pos m)
  | some .castleLong => pickUnique ((legalMoves pos).filter fun m => isCastleQMove pos m)
  | some (.normal p) => pickUnique ((legalMoves pos).filter fun m => matchesPattern pos p m)

/-- The SAN pattern describing a move, with selectable source-file and
source-rank disambiguation. -/
def mkPattern (pos : Position) (m : Move) (useF useR : Bool) : SanPattern :=
  { sPiece := (pieceTypeAt pos m.fromSq).getD .pawn
    sFromFile := if useF then some ⟨m.fromSq % 8, Nat.mod_lt _ (by omega)⟩ else none
    sFromRank := if useR then some ⟨m.fromSq / 8 % 8, Nat.mod_lt _ (by omega)⟩ else none
    sCapture := isCaptureMove pos m
    sDestFile := ⟨m.toSq % 8, Nat.mod_lt _ (by omega)⟩
    sDestRank := ⟨m.toSq / 8 % 8, Nat.mod_lt _ (by omega)⟩
    sPromo := m.promotion }

/-- Number of distinct legal moves matching a pattern. -/
def patternCount (pos : Position) (p : SanPattern) : Nat :=
  ((legalMoves pos).filter fun m => matchesPattern pos p m).dedup.length

/-- Modelled from the spec: minimal SAN disambiguation (§4.3): try the
bare destination; if ambiguous add the source file; if still ambiguous
the source rank; if still ambiguous both. -/
def choosePattern (pos : Position) (m : Move) : SanPattern :=
  if patternCount pos (mkPattern pos m false false) = 1 then mkPattern pos m false false
  else if patternCount pos (mkPattern pos m true false) = 1 then mkPattern pos m true false
  else if patternCount pos (mkPattern pos m false true) = 1 then mkPattern pos m false true
  else mkPattern pos m true true

/-- Check (`+`) or mate (`#`) suffix computed against the resulting
Position (§4.3). -/
def checkSuffix (pos : Position) (m : Move) : List Char :=
  let nxt := applyMove pos m
  if isCheckmate nxt then ['#']
  else if inCheck nxt nxt.sideToMove then ['+']
  else []

/-- Modelled from the spec: SAN encoding (§4.3): castling as O-O and
O-O-O, otherwise the minimally disambiguated pattern, followed by the
check or mate suffix. -/
def sanEncode (pos : Position) (m : Move) : String :=
  String.mk
    ((if isCastleKMove pos m then ['O', '-', 'O']
      else if isCastleQMove pos m then ['O', '-', 'O', '-', 'O']
      else renderPattern (choosePattern pos m)) ++ checkSuffix pos m)

/-- Outcome tag of interpreting one move-input string, per the spec's
ordered-attempt design note (§9): SAN success, UCI success, or a
distinguishable failure. -/
inductive TextOutcome where
  | okSan (m : Move)
  | okUci (m : Move)
  | errParse
  | errIllegal
deriving DecidableEq, Repr

/-- The move-interpretation step of `main` (lines 168-185): try the
input as SAN first; on any SAN failure try UCI, rejecting a parsed but
illegal UCI move with the illegal-move report and malformed text with
the format report; a successfully resolved move is pushed.  On every
failure the session is returned unchanged. -/
def moveStep (s : GameSession) (raw : String) : GameSession × TextOutcome :=
  match sanDecode s.current raw with
  | .ok m => (s.push m, .okSan m)
  | .error _ =>
    match uciDecode raw with
    | .error _ => (s, .errParse)
    | .ok m =>
      if m ∈ legalMoves s.current then (s.push m, .okUci m)
      else (s, .errIllegal)

/-- PGN header fields written by `save_pgn` (Event, Date, White, Black). -/
structure PgnHeaders where
  event : String
  date : String
  white : String
  black : String
deriving DecidableEq, Repr

/-- Modelled from the spec: a PGN game record (§3): headers, the Result
token, and the mainline as a sequence of SAN move tokens (the fixed
framing — move numbers, bracketed header lines — carries no further
information and is left implicit). -/
structure PgnGame where
  headers : PgnHeaders
  result : String
  mainline : List String
deriving DecidableEq, Repr

/-- SAN tokens of a history, each rendered against the Position it was
played from. -/
def sanTokens : Position → List (Move × Position) → List String
  | _, [] => []
  | pos, (m, p) :: rest => sanEncode pos m :: sanTokens p rest

/-- Modelled from the spec: PGN encoding (§4.5) as done by `save_pgn`
(lines 66-81): the given headers, the mainline SAN movetext, and the
Result token from the automatic game-over test. -/
def pgnEncode (s : GameSession) (h : PgnHeaders) : PgnGame :=
  { headers := h
    result := resultToken s.current
    mainline := sanTokens s.initial s.history }

/-- Replay SAN tokens through SAN decode and apply; any token that fails
to resolve fails the whole decode (§4.5 — no partial success). -/
def replaySan (s : GameSession) : List String → Except MoveError GameSession
  | [] => .ok s
  | t :: rest =>
    match sanDecode s.current t with
    | .error e => .error e
    | .ok m => replaySan (s.push m) rest

/-- Modelled from the spec: PGN decoding (§4.5) as done by `load_pgn`
(lines 84-102): replay the mainline from a fresh initial Position. -/
def pgnDecode (g : PgnGame) : Except MoveError GameSession :=
  replaySan startSession g.mainline

/-- The `load_pgn` function (lines 84-102): a missing file or a failed
decode yields no game. -/
def loadPgn (content : Option PgnGame) : Option GameSession :=
  match content with
  | none => none
  | some g =>
    match pgnDecode g with
    | .ok s => some s
    | .error _ => none

/-- The `load` command of `main` (lines 158-166): the current session is
replaced only when `load_pgn` produced a game. -/
def loadStep (s : GameSession) (content : Option PgnGame) : GameSession :=
  match loadPgn content with
  | some t => t
  | none => s

/-- The post-move report of `main` (lines 186-197): the elif chain
checkmate, stalemate, insufficient material, fifty-move claimable,
threefold claimable; at most one outcome is selected. -/
def postMoveReport (pos : Position) (snaps : List Position) : Option Outcome :=
  if isCheckmate pos then some (.checkmate pos.sideToMove.other)
  else if isStalemate pos then some .stalemate
  else if insufficientMaterial pos then some .drawInsufficientMaterial
  else if canClaimFiftyMoves pos then some .drawFiftyMoveClaimable
  else if canClaimThreefold pos snaps then some .drawThreefoldClaimable
  else none

/-- Shape facts about every generated move, used for codec round trips:
squares are on the board, the source square is occupied by the side to
move, and a promotion is recorded exactly for pawn moves arriving on the
promotion rank (and then is one of the four promotion pieces). -/
def MoveOk (pos : Position) (m : Move) : Prop :=
  m.fromSq < 64 ∧ m.toSq < 64 ∧
  (∃ pc, pieceAt pos.board m.fromSq = some pc ∧ pc.color = pos.sideToMove) ∧
  (match m.promotion with
   | none =>
     ¬(pieceAt pos.board m.fromSq = some ⟨pos.sideToMove, .pawn⟩ ∧
       rankZ m.toSq = promoRank pos.sideToMove)
   | some t =>
     pieceAt pos.board m.fromSq = some ⟨pos.sideToMove, .pawn⟩ ∧
       rankZ m.toSq = promoRank pos.sideToMove ∧
       (t = .queen ∨ t = .rook ∨ t = .bishop ∨ t = .knight))

/-- Valid SAN-pattern promotions: none or one of the four promotion
pieces (what `renderPattern` can write as a promotion suffix). -/
def PatOk (p : SanPattern) : Prop :=
  p.sPromo = none ∨ p.sPromo = some .queen ∨ p.sPromo = some .rook ∨
    p.sPromo = some .bishop ∨ p.sPromo = some .knight

/-- A position in which the fifty-move rule has just become claimable
(used as a concrete test state). -/
def fiftyPos : Position := { startPos with halfmoveClock := 100 }

/-- Header values as `save_pgn` fills them by default. -/
def defaultHeaders : PgnHeaders :=
  { event := "CLI Chess", date := "2026.10.12", white := "White", black := "Black" }

/-- The fool's mate scripted scenario of §8: the four inputs
f2f3, e7e5, g2g4, d8h4 fed to the move-interpretation step. -/
def foolsSession : GameSession :=
  (moveStep (moveStep (moveStep (moveStep startSession "f2f3").1 "e7e5").1 "g2g4").1 "d8h4").1

/-- A concrete two-ply session (1. e4 e5), used as a round-trip test
subject. -/
def twoPlySession : GameSession :=
  (startSession.push ⟨12, 28, none⟩).push ⟨52, 36, none⟩

/-! Generator structure lemmas. -/

theorem mkSq_some {f r : Int} {t : Nat} (h : mkSq f r = some t) :
    t < 64 ∧ fileZ t = f ∧ rankZ t = r := by
  unfold mkSq at h
  split at h
  · rename_i hc
    obtain ⟨h0, h1, h2, h3⟩ := hc
    injection h with ht
    subst ht
    unfold fileZ rankZ
    have hf : f.toNat < 8 := by omega
    have hr : r.toNat < 8 := by omega
    have hm : (r.toNat * 8 + f.toNat) % 8 = f.toNat := by omega
    have hd : (r.toNat * 8 + f.toNat) / 8 = r.toNat := by omega
    rw [hm, hd]
    omega
  · cases h

theorem promoExpand_mem {c : Color} {sq t : Nat} {m : Move} (h : m ∈ promoExpand c sq t) :
    m.fromSq = sq ∧ m.toSq = t ∧
      (match m.promotion with
       | none => rankZ t ≠ promoRank c
       | some pt => rankZ t = promoRank c ∧
           (pt = .queen ∨ pt = .rook ∨ pt = .bishop ∨ pt = .knight)) := by
  unfold promoExpand at h
  split at h
  · rename_i hr
    simp only [List.mem_cons, List.mem_singleton, List.not_mem_nil, or_false] at h
    rcases h with h | h | h | h <;> subst h <;> simp_all
  · rename_i hr
    simp only [List.mem_singleton] at h
    subst h
    simp_all

theorem leapMoves_mem {pos : Position} {sq : Nat} {offs : List (Int × Int)} {m : Move}
    (h : m ∈ leapMoves pos sq offs) :
    m.fromSq = sq ∧ m.toSq < 64 ∧ m.promotion = none ∧
      ∃ d ∈ offs, mkSq (fileZ sq + d.1) (rankZ sq + d.2) = some m.toSq := by
  unfold leapMoves at h
  rw [List.mem_filterMap] at h
  obtain ⟨d, hd, hm⟩ := h
  split at hm
  · cases hm
  · rename_i t ht
    split at hm
    · cases hm
    · injection hm with hm
      subst hm
      exact ⟨rfl, (mkSq_some ht).1, rfl, d, hd, ht⟩

theorem ray_mem {pos : Position} {sq : Nat} {f r df dr : Int} {fuel : Nat} {m : Move}
    (h : m ∈ ray pos sq f r df dr fuel) :
    m.fromSq = sq ∧ m.toSq < 64 ∧ m.promotion = none := by
  induction fuel generalizing f r with
  | zero => cases h
  | succ n ih =>
    unfold ray at h
    split at h
    · cases h
    · rename_i t ht
      split at h
      · rcases List.mem_cons.mp h with h | h
        · subst h
          exact ⟨rfl, (mkSq_some ht).1, rfl⟩
        · exact ih h
      · split at h
        · cases h
        · rcases List.mem_singleton.mp h with h
          subst h
          exact ⟨rfl, (mkSq_some ht).1, rfl⟩

theorem slideMoves_mem {pos : Position} {sq : Nat} {dirs : List (Int × Int)} {m : Move}
    (h : m ∈ slideMoves pos sq dirs) :
    m.fromSq = sq ∧ m.toSq < 64 ∧ m.promotion = none := by
  unfold slideMoves at h
  rw [List.mem_flatMap] at h
  obtain ⟨d, _, hm⟩ := h
  exact ray_mem hm

theorem castleMoves_mem {pos : Position} {sq : Nat} {m : Move} (h : m ∈ castleMoves pos sq) :
    m.promotion = none ∧
      ((pos.sideToMove = .white ∧ sq = 4 ∧ (m = ⟨4, 6, none⟩ ∨ m = ⟨4, 2, none⟩)) ∨
       (pos.sideToMove = .black ∧ sq = 60 ∧ (m = ⟨60, 62, none⟩ ∨ m = ⟨60, 58, none⟩))) := by
  unfold castleMoves at h
  rw [List.mem_append] at h
  rcases h with h | h
  · split at h
    · rename_i hw
      rw [List.mem_append] at h
      rcases h with h | h <;> split at h <;>
        simp only [List.mem_singleton, List.not_mem_nil] at h <;> subst h <;>
        exact ⟨rfl, Or.inl ⟨hw.1, hw.2, by simp⟩⟩
    · cases h
  · split at h
    · rename_i hb
      rw [List.mem_append] at h
      rcases h with h | h <;> split at h <;>
        simp only [List.mem_singleton, List.not_mem_nil] at h <;> subst h <;>
        exact ⟨rfl, Or.inr ⟨hb.1, hb.2, by simp⟩⟩
    · cases h

theorem pawnMoves_mem {pos : Position} {sq : Nat} {m : Move} (h : m ∈ pawnMoves pos sq) :
    m.fromSq = sq ∧ m.toSq < 64 ∧
      (match m.promotion with
       | none => rankZ m.toSq ≠ promoRank pos.sideToMove
       | some pt => rankZ m.toSq = promoRank pos.sideToMove ∧
           (pt = .queen ∨ pt = .rook ∨ pt = .bishop ∨ pt = .knight)) := by
  unfold pawnMoves at h
  rw [List.mem_append] at h
  rcases h with h | h
  · -- pushes
    split at h
    · cases h
    · rename_i t1 ht1
      split at h
      · cases h
      · rw [List.mem_append] at h
        rcases h with h | h
        · obtain ⟨h1, h2, h3⟩ := promoExpand_mem h
          refine ⟨h1, ?_, ?_⟩
          · rw [h2]; exact (mkSq_some ht1).1
          · rw [h2]; exact h3
        · split at h
          · rename_i hstart
            split at h
            · cases h
            · rename_i t2 ht2
              split at h
              · cases h
              · rcases List.mem_singleton.mp h with h
                subst h
                obtain ⟨hlt, _, hrk⟩ := mkSq_some ht2
                refine ⟨rfl, hlt, ?_⟩
                simp only
                rw [hrk, hstart]
                cases pos.sideToMove <;> simp [pawnStartRank, pawnDir, promoRank]
          · cases h
  · -- captures
    rw [List.mem_flatMap] at h
    obtain ⟨df, _, h⟩ := h
    split at h
    · cases h
    · rename_i t ht
      split at h
      · obtain ⟨h1, h2, h3⟩ := promoExpand_mem h
        refine ⟨h1, ?_, ?_⟩
        · rw [h2]; exact (mkSq_some ht).1
        · rw [h2]; exact h3
      · cases h

theorem mem_movesFrom {pos : Position} {sq : Nat} {m : Move} (h : m ∈ movesFrom pos sq) :
    ∃ pc, pieceAt pos.board sq = some pc ∧ pc.color = pos.sideToMove ∧
      m ∈ pieceMoves pos sq pc.ptype := by
  unfold movesFrom at h
  split at h
  · cases h
  · rename_i pc hp
    split at h
    · exact ⟨pc, hp, by assumption, h⟩
    · cases h

theorem pieceMoves_fromSq {pos : Position} {sq : Nat} {t : PieceType} {m : Move}
    (h : m ∈ pieceMoves pos sq t) : m.fromSq = sq := by
  cases t with
  | pawn => exact (pawnMoves_mem h).1
  | knight => exact (leapMoves_mem h).1
  | bishop => exact (slideMoves_mem h).1
  | rook => exact (slideMoves_mem h).1
  | queen => exact (slideMoves_mem h).1
  | king =>
    rcases List.mem_append.mp h with h | h
    · exact (leapMoves_mem h).1
    · rcases (castleMoves_mem h).2 with ⟨_, hsq, hm | hm⟩ | ⟨_, hsq, hm | hm⟩ <;>
        subst hm <;> simp [hsq]

theorem mem_pseudo {pos : Position} {m : Move} (h : m ∈ pseudoLegalMoves pos) :
    ∃ sq, sq < 64 ∧ ∃ pc, pieceAt pos.board sq = some pc ∧
      pc.color = pos.sideToMove ∧ m ∈ pieceMoves pos sq pc.ptype := by
  unfold pseudoLegalMoves at h
  rw [List.mem_flatMap] at h
  obtain ⟨sq, hsq, hm⟩ := h
  obtain ⟨pc, h1, h2, h3⟩ := mem_movesFrom hm
  exact ⟨sq, List.mem_range.mp hsq, pc, h1, h2, h3⟩

theorem pseudo_moveOk {pos : Position} {m : Move} (h : m ∈ pseudoLegalMoves pos) :
    MoveOk pos m := by
  obtain ⟨sq, hsq, pc, hpc, hcol, hm⟩ := mem_pseudo h
  have hfrom : m.fromSq = sq := pieceMoves_fromSq hm
  subst hfrom
  cases hpt : pc.ptype with
  | pawn =>
    rw [hpt] at hm
    obtain ⟨-, hlt, hsh⟩ := pawnMoves_mem hm
    have hpcw : pc = ⟨pos.sideToMove, .pawn⟩ := by
      cases pc; simp_all
    refine ⟨hsq, hlt, ⟨pc, hpc, hcol⟩, ?_⟩
    rcases hpr : m.promotion with _ | t
    · rw [hpr] at hsh
      intro hcontra
      exact hsh hcontra.2
    · rw [hpr] at hsh
      exact ⟨by rw [hpc, hpcw], hsh.1, hsh.2⟩
  | knight =>
    rw [hpt] at hm
    obtain ⟨-, hlt, hpr, -⟩ := leapMoves_mem hm
    refine ⟨hsq, hlt, ⟨pc, hpc, hcol⟩, ?_⟩
    rw [hpr]
    intro hcontra
    rw [hpc] at hcontra
    have : pc.ptype = PieceType.pawn := by
      have := hcontra.1
      injection this with hh
      rw [hh]
    simp_all
  | bishop =>
    rw [hpt] at hm
    obtain ⟨-, hlt, hpr⟩ := slideMoves_mem hm
    refine ⟨hsq, hlt, ⟨pc, hpc, hcol⟩, ?_⟩
    rw [hpr]
    intro hcontra
    rw [hpc] at hcontra
    have : pc.ptype = PieceType.pawn := by
      have := hcontra.1
      injection this with hh
      rw [hh]
    simp_all
  | rook =>
    rw [hpt] at hm
    obtain ⟨-, hlt, hpr⟩ := slideMoves_mem hm
    refine ⟨hsq, hlt, ⟨pc, hpc, hcol⟩, ?_⟩
    rw [hpr]
    intro hcontra
    rw [hpc] at hcontra
    have : pc.ptype = PieceType.pawn := by
      have := hcontra.1
      injection this with hh
      rw [hh]
    simp_all
  | queen =>
    rw [hpt] at hm
    obtain ⟨-, hlt, hpr⟩ := slideMoves_mem hm
    refine ⟨hsq, hlt, ⟨pc, hpc, hcol⟩, ?_⟩
    rw [hpr]
    intro hcontra
    rw [hpc] at hcontra
    have : pc.ptype = PieceType.pawn := by
      have := hcontra.1
      injection this with hh
      rw [hh]
    simp_all
  | king =>
    rw [hpt] at hm
    have hshape : m.toSq < 64 ∧ m.promotion = none := by
      rcases List.mem_append.mp hm with h' | h'
      · exact ⟨(leapMoves_mem h').2.1, (leapMoves_mem h').2.2.1⟩
      · rcases (castleMoves_mem h').2 with ⟨-, -, hm' | hm'⟩ | ⟨-, -, hm' | hm'⟩ <;>
          subst hm' <;> exact ⟨by decide, rfl⟩
    refine ⟨hsq, hshape.1, ⟨pc, hpc, hcol⟩, ?_⟩
    rw [hshape.2]
    intro hcontra
    rw [hpc] at hcontra
    have : pc.ptype = PieceType.pawn := by
      have := hcontra.1
      injection this with hh
      rw [hh]
    simp_all

theorem legal_sub_pseudo {pos : Position} {m : Move} (h : m ∈ legalMoves pos) :
    m ∈ pseudoLegalMoves pos := by
  unfold legalMoves at h
  exact (List.mem_filter.mp h).1

theorem legal_moveOk {pos : Position} {m : Move} (h : m ∈ legalMoves pos) : MoveOk pos m :=
  pseudo_moveOk (legal_sub_pseudo h)

/-! Character lemmas. -/

theorem charNat_small : ∀ n, n < 128 → (Char.ofNat n).toNat = n := by decide

theorem sqOfChars_round (sq : Nat) (h : sq < 64) :
    sqOfChars (Char.ofNat (97 + sq % 8)) (Char.ofNat (49 + sq / 8 % 8)) = some sq := by
  have hf8 : sq % 8 < 8 := Nat.mod_lt _ (by omega)
  have hr8 : sq / 8 % 8 < 8 := Nat.mod_lt _ (by omega)
  have h1 : (Char.ofNat (97 + sq % 8)).toNat = 97 + sq % 8 := charNat_small _ (by omega)
  have h2 : (Char.ofNat (49 + sq / 8 % 8)).toNat = 49 + sq / 8 % 8 := charNat_small _ (by omega)
  unfold sqOfChars isFileCh isRankCh
  rw [h1, h2]
  split
  · have : (49 + sq / 8 % 8 - 49) * 8 + (97 + sq % 8 - 97) = sq := by omega
    rw [this]
  · rename_i hcond
    exact absurd (by simp only [Bool.and_eq_true, decide_eq_true_eq]; omega) hcond

/-! SAN character classification lemmas. -/

theorem fileOfCh_fileCh : ∀ f : Fin 8, fileOfCh (fileCh f) = some f := by decide

theorem rankOfCh_rankCh : ∀ r : Fin 8, rankOfCh (rankCh r) = some r := by decide

theorem rankOfCh_fileCh : ∀ f : Fin 8, rankOfCh (fileCh f) = none := by decide

theorem fileOfCh_rankCh : ∀ r : Fin 8, fileOfCh (rankCh r) = none := by decide

theorem fileOfCh_pieceLetter : ∀ t : PieceType, fileOfCh (pieceLetter t) = none := by
  intro t
  cases t <;> decide

theorem rankOfCh_pieceLetter : ∀ t : PieceType, rankOfCh (pieceLetter t) = none := by
  intro t
  cases t <;> decide

theorem fileCh_ne_eqs : ∀ f : Fin 8, fileCh f ≠ '=' := by decide

theorem rankCh_ne_eqs : ∀ r : Fin 8, rankCh r ≠ '=' := by decide

theorem pieceLetter_ne_eqs : ∀ t : PieceType, pieceLetter t ≠ '=' := by
  intro t
  cases t <;> decide

theorem fileCh_ne_x : ∀ f : Fin 8, fileCh f ≠ 'x' := by decide

theorem rankCh_ne_x : ∀ r : Fin 8, rankCh r ≠ 'x' := by decide

theorem pieceLetter_ne_x : ∀ t : PieceType, pieceLetter t ≠ 'x' := by
  intro t
  cases t <;> decide

theorem fileCh_ne_plus : ∀ f : Fin 8, fileCh f ≠ '+' ∧ fileCh f ≠ '#' := by decide

theorem rankCh_ne_plus : ∀ r : Fin 8, rankCh r ≠ '+' ∧ rankCh r ≠ '#' := by decide

theorem pieceLetter_ne_plus : ∀ t : PieceType, pieceLetter t ≠ '+' ∧ pieceLetter t ≠ '#' := by
  intro t
  cases t <;> decide

theorem fileCh_ne_O : ∀ f : Fin 8, fileCh f ≠ 'O' := by decide

theorem rankCh_ne_O : ∀ r : Fin 8, rankCh r ≠ 'O' := by decide

theorem rankCh_ne_dash : ∀ r : Fin 8, rankCh r ≠ '-' := by decide

theorem pieceLetter_ne_O : ∀ t : PieceType, pieceLetter t ≠ 'O' := by
  intro t
  cases t <;> decide

theorem letterPiece_pieceLetter :
    ∀ t : PieceType, t ≠ .pawn → letterPiece (pieceLetter t) = some t := by
  intro t
  cases t <;> decide

theorem promoLetterPiece_pieceLetter :
    ∀ t : PieceType, (t = .queen ∨ t = .rook ∨ t = .bishop ∨ t = .knight) →
      promoLetterPiece (pieceLetter t) = some t := by
  intro t
  cases t <;> decide

/-! Parser-of-render lemmas. -/

theorem parsePromoR_none {c e : Char} {rest : List Char} (h : e ≠ '=') :
    parsePromoR (c :: e :: rest) = (none, c :: e :: rest) := by
  show (if e = '=' then
      (match promoLetterPiece c with
       | some t => (some t, rest)
       | none => (none, c :: e :: rest))
    else (none, c :: e :: rest)) = (none, c :: e :: rest)
  rw [if_neg h]

theorem parsePromoR_some {t : PieceType} {rest : List Char}
    (h : t = .queen ∨ t = .rook ∨ t = .bishop ∨ t = .knight) :
    parsePromoR (pieceLetter t :: '=' :: rest) = (some t, rest) := by
  show (if '=' = '=' then
      (match promoLetterPiece (pieceLetter t) with
       | some t => (some t, rest)
       | none => (none, pieceLetter t :: '=' :: rest))
    else (none, pieceLetter t :: '=' :: rest)) = (some t, rest)
  rw [if_pos rfl, promoLetterPiece_pieceLetter t h]

theorem parseCapR_x {rest : List Char} : parseCapR ('x' :: rest) = (true, rest) := by
  show (if 'x' = 'x' then ((true : Bool), rest) else ((false : Bool), 'x' :: rest)) =
    ((true : Bool), rest)
  rw [if_pos rfl]

theorem parseCapR_not {c : Char} {rest : List Char} (h : c ≠ 'x') :
    parseCapR (c :: rest) = (false, c :: rest) := by
  show (if c = 'x' then ((true : Bool), rest) else ((false : Bool), c :: rest)) =
    ((false : Bool), c :: rest)
  rw [if_neg h]

theorem parseRankR_some {r : Fin 8} {rest : List Char} :
    parseRankR (rankCh r :: rest) = (some r, rest) := by
  show (match rankOfCh (rankCh r) with
    | some x => (some x, rest)
    | none => (none, rankCh r :: rest)) = (some r, rest)
  rw [rankOfCh_rankCh r]

theorem parseRankR_not {c : Char} {rest : List Char} (h : rankOfCh c = none) :
    parseRankR (c :: rest) = (none, c :: rest) := by
  show (match rankOfCh c with
    | some x => (some x, rest)
    | none => (none, c :: rest)) = (none, c :: rest)
  rw [h]

theorem parseFileR_some {f : Fin 8} {rest : List Char} :
    parseFileR (fileCh f :: rest) = (some f, rest) := by
  show (match fileOfCh (fileCh f) with
    | some x => (some x, rest)
    | none => (none, fileCh f :: rest)) = (some f, rest)
  rw [fileOfCh_fileCh f]

theorem parseFileR_not {c : Char} {rest : List Char} (h : fileOfCh c = none) :
    parseFileR (c :: rest) = (none, c :: rest) := by
  show (match fileOfCh c with
    | some x => (some x, rest)
    | none => (none, c :: rest)) = (none, c :: rest)
  rw [h]

theorem parsePromoR_nil : parsePromoR [] = (none, []) := rfl

theorem parsePromoR_one {c : Char} : parsePromoR [c] = (none, [c]) := rfl

theorem parseCapR_nil : parseCapR [] = (false, []) := rfl

theorem parseRankR_nil : parseRankR [] = (none, []) := rfl

theorem parseFileR_nil : parseFileR [] = (none, []) := rfl

/-- Parsing the reversed rendering of a pattern recovers the pattern. -/
theorem parseRevCore_render (pp : SanPattern) (hok : PatOk pp) :
    parseRevCore (renderPattern pp).reverse = some pp := by
  obtain ⟨piece, ff, fr, cap, df, dr, promo⟩ := pp
  have hok' : promo = none ∨ ∃ t, promo = some t ∧
      (t = PieceType.queen ∨ t = PieceType.rook ∨ t = PieceType.bishop ∨
        t = PieceType.knight) := by
    rcases hok with h | h | h | h | h
    · exact Or.inl h
    · exact Or.inr ⟨_, h, Or.inl rfl⟩
    · exact Or.inr ⟨_, h, Or.inr (Or.inl rfl)⟩
    · exact Or.inr ⟨_, h, Or.inr (Or.inr (Or.inl rfl))⟩
    · exact Or.inr ⟨_, h, Or.inr (Or.inr (Or.inr rfl))⟩
  clear hok
  rcases hok' with h | ⟨t, h, ht⟩
  · subst h
    by_cases hp : piece = PieceType.pawn
    · subst hp
      rcases ff with _ | f <;> rcases fr with _ | r <;> cases cap <;>
        · simp only [renderPattern, List.reverse_cons, List.reverse_append, List.reverse_nil,
            List.nil_append, List.append_assoc, List.cons_append, List.append_nil,
            List.singleton_append, Bool.false_eq_true, if_false, eq_self_iff_true, if_true]
          simp only [parseRevCore, parsePromoR_none, parseCapR_x, parseCapR_not,
            parseRankR_some, parseRankR_not, parseFileR_some, parseFileR_not, parseTail,
            fileOfCh_fileCh, rankOfCh_rankCh, rankOfCh_fileCh, fileOfCh_rankCh,
            rankOfCh_pieceLetter, fileOfCh_pieceLetter, fileCh_ne_eqs, rankCh_ne_eqs,
            pieceLetter_ne_eqs, fileCh_ne_x, rankCh_ne_x, pieceLetter_ne_x, ne_eq,
            not_false_eq_true, parsePromoR_nil, parsePromoR_one, parseCapR_nil,
            parseRankR_nil, parseFileR_nil]
    · have hlp := letterPiece_pieceLetter piece hp
      rcases ff with _ | f <;> rcases fr with _ | r <;> cases cap <;>
        · simp only [renderPattern, List.reverse_cons, List.reverse_append, List.reverse_nil,
            List.nil_append, List.append_assoc, List.cons_append, List.append_nil,
            List.singleton_append, Bool.false_eq_true, if_false, eq_self_iff_true, if_true,
            hp]
          simp only [parseRevCore, parsePromoR_none, parseCapR_x, parseCapR_not,
            parseRankR_some, parseRankR_not, parseFileR_some, parseFileR_not, parseTail,
            fileOfCh_fileCh, rankOfCh_rankCh, rankOfCh_fileCh, fileOfCh_rankCh,
            rankOfCh_pieceLetter, fileOfCh_pieceLetter, fileCh_ne_eqs, rankCh_ne_eqs,
            pieceLetter_ne_eqs, fileCh_ne_x, rankCh_ne_x, pieceLetter_ne_x, ne_eq,
            not_false_eq_true, parsePromoR_nil, parsePromoR_one, parseCapR_nil,
            parseRankR_nil, parseFileR_nil, hlp]
  · subst h
    by_cases hp : piece = PieceType.pawn
    · subst hp
      rcases ff with _ | f <;> rcases fr with _ | r <;> cases cap <;>
        · simp only [renderPattern, List.reverse_cons, List.reverse_append, List.reverse_nil,
            List.nil_append, List.append_assoc, List.cons_append, List.append_nil,
            List.singleton_append, Bool.false_eq_true, if_false, eq_self_iff_true, if_true]
          simp only [parseRevCore, parsePromoR_some ht, parsePromoR_none, parseCapR_x,
            parseCapR_not, parseRankR_some, parseRankR_not, parseFileR_some, parseFileR_not,
            parseTail, fileOfCh_fileCh, rankOfCh_rankCh, rankOfCh_fileCh, fileOfCh_rankCh,
            rankOfCh_pieceLetter, fileOfCh_pieceLetter, fileCh_ne_eqs, rankCh_ne_eqs,
            pieceLetter_ne_eqs, fileCh_ne_x, rankCh_ne_x, pieceLetter_ne_x, ne_eq,
            not_false_eq_true, parsePromoR_nil, parsePromoR_one, parseCapR_nil,
            parseRankR_nil, parseFileR_nil]
    · have hlp := letterPiece_pieceLetter piece hp
      rcases ff with _ | f <;> rcases fr with _ | r <;> cases cap <;>
        · simp only [renderPattern, List.reverse_cons, List.reverse_append, List.reverse_nil,
            List.nil_append, List.append_assoc, List.cons_append, List.append_nil,
            List.singleton_append, Bool.false_eq_true, if_false, eq_self_iff_true, if_true,
            hp]
          simp only [parseRevCore, parsePromoR_some ht, parsePromoR_none, parseCapR_x,
            parseCapR_not, parseRankR_some, parseRankR_not, parseFileR_some, parseFileR_not,
            parseTail, fileOfCh_fileCh, rankOfCh_rankCh, rankOfCh_fileCh, fileOfCh_rankCh,
            rankOfCh_pieceLetter, fileOfCh_pieceLetter, fileCh_ne_eqs, rankCh_ne_eqs,
            pieceLetter_ne_eqs, fileCh_ne_x, rankCh_ne_x, pieceLetter_ne_x, ne_eq,
            not_false_eq_true, parsePromoR_nil, parsePromoR_one, parseCapR_nil,
            parseRankR_nil, parseFileR_nil, hlp]

/-- The reversed rendering starts with the promotion letter when there
is one, else with the destination rank digit. -/
theorem render_reverse_cons (pp : SanPattern) :
    ∃ rest, (renderPattern pp).reverse =
      (match pp.sPromo with
       | some t => pieceLetter t
       | none => rankCh pp.sDestRank) :: rest := by
  obtain ⟨piece, ff, fr, cap, df, dr, promo⟩ := pp
  rcases promo with _ | t <;>
    · simp only [renderPattern, List.reverse_append, List.reverse_cons, List.reverse_nil,
        List.nil_append, List.cons_append, List.append_nil, List.append_assoc,
        List.singleton_append]
      exact ⟨_, rfl⟩

/-- A rendered pattern is never one of the castling tokens (it contains
a rank digit, which those tokens do not). -/
theorem render_ne_castle (pp : SanPattern) :
    renderPattern pp ≠ ['O', '-', 'O'] ∧ renderPattern pp ≠ ['O', '-', 'O', '-', 'O'] := by
  have hmem : rankCh pp.sDestRank ∈ renderPattern pp := by
    obtain ⟨piece, ff, fr, cap, df, dr, promo⟩ := pp
    simp [renderPattern]
  constructor
  · intro heq
    rw [heq] at hmem
    simp only [List.mem_cons, List.not_mem_nil, or_false] at hmem
    rcases hmem with h | h | h
    · exact rankCh_ne_O _ h
    · exact rankCh_ne_dash _ h
    · exact rankCh_ne_O _ h
  · intro heq
    rw [heq] at hmem
    simp only [List.mem_cons, List.not_mem_nil, or_false] at hmem
    rcases hmem with h | h | h | h | h
    · exact rankCh_ne_O _ h
    · exact rankCh_ne_dash _ h
    · exact rankCh_ne_O _ h
    · exact rankCh_ne_dash _ h
    · exact rankCh_ne_O _ h

theorem sanParseTok_render (pp : SanPattern) (hok : PatOk pp) (sfx : List Char)
    (hsfx : sfx = [] ∨ sfx = ['+'] ∨ sfx = ['#']) :
    sanParseTok (String.mk (renderPattern pp ++ sfx)) = some (.normal pp) := by
  have hcore := parseRevCore_render pp hok
  have hne := render_ne_castle pp
  have htl : ∀ l : List Char, (String.mk l).toList = l := fun l => rfl
  have hhead : ∃ c rest2, (renderPattern pp).reverse = c :: rest2 ∧ c ≠ '+' ∧ c ≠ '#' := by
    obtain ⟨rest, hrev⟩ := render_reverse_cons pp
    rcases hsp : pp.sPromo with _ | t
    · rw [hsp] at hrev
      exact ⟨_, rest, hrev, (rankCh_ne_plus _).1, (rankCh_ne_plus _).2⟩
    · rw [hsp] at hrev
      exact ⟨_, rest, hrev, (pieceLetter_ne_plus _).1, (pieceLetter_ne_plus _).2⟩
  obtain ⟨c, rest2, hrev2, hcp, hch⟩ := hhead
  rcases hsfx with h | h | h <;> subst h
  · unfold sanParseTok
    simp only [htl, List.append_nil, hrev2, hcp, hch, or_self, if_false, Bool.false_eq_true,
      ne_eq, not_false_eq_true, or_false, false_or]
    simp only [← hrev2, List.reverse_reverse, hne.1, hne.2, if_false, hcore,
      Option.map_some']
  · unfold sanParseTok
    simp only [htl, List.reverse_append, List.reverse_cons, List.reverse_nil,
      List.nil_append, List.singleton_append, eq_self_iff_true, true_or, or_true, if_true]
    simp only [List.reverse_reverse, hne.1, hne.2, if_false, hcore, Option.map_some']
  · unfold sanParseTok
    simp only [htl, List.reverse_append, List.reverse_cons, List.reverse_nil,
      List.nil_append, List.singleton_append, eq_self_iff_true, true_or, or_true, if_true]
    simp only [List.reverse_reverse, hne.1, hne.2, if_false, hcore, Option.map_some']

theorem sanParseTok_castleShort (sfx : List Char)
    (hsfx : sfx = [] ∨ sfx = ['+'] ∨ sfx = ['#']) :
    sanParseTok (String.mk (['O', '-', 'O'] ++ sfx)) = some .castleShort := by
  rcases hsfx with h | h | h <;> subst h <;> rfl

theorem sanParseTok_castleLong (sfx : List Char)
    (hsfx : sfx = [] ∨ sfx = ['+'] ∨ sfx = ['#']) :
    sanParseTok (String.mk (['O', '-', 'O', '-', 'O'] ++ sfx)) = some .castleLong := by
  rcases hsfx with h | h | h <;> subst h <;> rfl

theorem checkSuffix_cases (pos : Position) (m : Move) :
    checkSuffix pos m = [] ∨ checkSuffix pos m = ['+'] ∨ checkSuffix pos m = ['#'] := by
  simp only [checkSuffix]
  split_ifs <;> simp

/-! SAN matching lemmas. -/

theorem matches_mkPattern (pos : Position) (m : Move) (hok : MoveOk pos m)
    (uF uR : Bool) : matchesPattern pos (mkPattern pos m uF uR) m = true := by
  obtain ⟨hf, ht, ⟨pc, hpc, hcol⟩, hpr⟩ := hok
  have hpt : pieceTypeAt pos m.fromSq = some pc.ptype := by
    unfold pieceTypeAt
    rw [hpc]
    rfl
  have hr8 : m.fromSq / 8 % 8 = m.fromSq / 8 := Nat.mod_eq_of_lt (by omega)
  have hdest : m.toSq / 8 % 8 * 8 + m.toSq % 8 = m.toSq := by omega
  unfold matchesPattern mkPattern
  rcases hmp : m.promotion with _ | t <;>
    cases uF <;> cases uR <;>
      simp [hpt, hr8, hdest, hmp, Bool.and_eq_true, decide_eq_true_eq, if_true, if_false]

theorem matches_both_unique (pos : Position) (m x : Move)
    (hok : MoveOk pos m) (hok' : MoveOk pos x)
    (h : matchesPattern pos (mkPattern pos m true true) x = true) : x = m := by
  obtain ⟨hf, ht, -, hpr⟩ := hok
  obtain ⟨hf', ht', -, hpr'⟩ := hok'
  unfold matchesPattern mkPattern at h
  simp only [Bool.and_eq_true, decide_eq_true_eq, eq_self_iff_true, if_true] at h
  obtain ⟨⟨⟨⟨⟨hpt, hfile⟩, hrank⟩, hcap⟩, hdest⟩, hpromo⟩ := h
  have hfrom : x.fromSq = m.fromSq := by omega
  have hto : x.toSq = m.toSq := by omega
  rcases hmp : m.promotion with _ | t
  · rw [hmp] at hpromo hpr
    simp only [Bool.or_eq_true, decide_eq_true_eq] at hpromo
    rcases hpromo with h' | h'
    · obtain ⟨xf, xt, xp⟩ := x
      obtain ⟨mf, mt, mp⟩ := m
      simp_all
    · rw [h'] at hpr'
      exfalso
      apply hpr
      constructor
      · rw [← hfrom]
        exact hpr'.1
      · rw [← hto]
        exact hpr'.2.1
  · rw [hmp] at hpromo
    simp only [decide_eq_true_eq] at hpromo
    obtain ⟨xf, xt, xp⟩ := x
    obtain ⟨mf, mt, mp⟩ := m
    simp_all

theorem dedup_eq_single {l : List Move} {m : Move} (hm : m ∈ l)
    (hall : ∀ x ∈ l, x = m) : l.dedup = [m] := by
  have hnd : l.dedup.Nodup := l.nodup_dedup
  have hmem : m ∈ l.dedup := List.mem_dedup.mpr hm
  rcases hd : l.dedup with _ | ⟨a, rest⟩
  · rw [hd] at hmem
    cases hmem
  · have ha : a = m := hall a (List.mem_dedup.mp (by rw [hd]; exact List.mem_cons_self a rest))
    have hrest : rest = [] := by
      cases rest with
      | nil => rfl
      | cons b bs =>
        exfalso
        have hb : b ∈ l.dedup := by
          rw [hd]
          exact List.mem_cons_of_mem _ (List.mem_cons_self b bs)
        have hbm : b = m := hall b (List.mem_dedup.mp hb)
        rw [hd] at hnd
        apply (List.nodup_cons.mp hnd).1
        rw [ha, ← hbm]
        exact List.mem_cons_self b bs
    rw [ha, hrest]

theorem dedup_len_one {l : List Move} {m : Move} (hc : l.dedup.length = 1) (hm : m ∈ l) :
    l.dedup = [m] := by
  obtain ⟨x, hx⟩ := List.length_eq_one.mp hc
  have hmm : m ∈ l.dedup := List.mem_dedup.mpr hm
  rw [hx] at hmm ⊢
  have := List.mem_singleton.mp hmm
  rw [this]

theorem pickUnique_ok {l : List Move} {m : Move} (h : l.dedup = [m]) :
    pickUnique l = .ok m := by
  unfold pickUnique
  rw [h]

theorem PatOk_mkPattern (pos : Position) (m : Move) (hok : MoveOk pos m) (a b : Bool) :
    PatOk (mkPattern pos m a b) := by
  obtain ⟨-, -, -, hpr⟩ := hok
  have hsp : (mkPattern pos m a b).sPromo = m.promotion := rfl
  unfold PatOk
  rw [hsp]
  rcases hmp : m.promotion with _ | t
  · exact Or.inl rfl
  · rw [hmp] at hpr
    rcases hpr.2.2 with h | h | h | h <;> subst h
    · exact Or.inr (Or.inl rfl)
    · exact Or.inr (Or.inr (Or.inl rfl))
    · exact Or.inr (Or.inr (Or.inr (Or.inl rfl)))
    · exact Or.inr (Or.inr (Or.inr (Or.inr rfl)))

theorem PatOk_choose (pos : Position) (m : Move) (hok : MoveOk pos m) :
    PatOk (choosePattern pos m) := by
  unfold choosePattern
  split_ifs <;> exact PatOk_mkPattern pos m hok _ _

theorem choose_filter_dedup (pos : Position) (m : Move) (h : m ∈ legalMoves pos) :
    ((legalMoves pos).filter fun x => matchesPattern pos (choosePattern pos m) x).dedup
      = [m] := by
  have hok := legal_moveOk h
  have hmem : ∀ a b : Bool, m ∈ (legalMoves pos).filter
      fun x => matchesPattern pos (mkPattern pos m a b) x := fun a b =>
    List.mem_filter.mpr ⟨h, matches_mkPattern pos m hok a b⟩
  unfold choosePattern
  split_ifs with h0 h1 h2
  · exact dedup_len_one h0 (hmem false false)
  · exact dedup_len_one h1 (hmem true false)
  · exact dedup_len_one h2 (hmem false true)
  · refine dedup_eq_single (hmem true true) ?_
    intro x hx
    have hx' := List.mem_filter.mp hx
    exact matches_both_unique pos m x hok (legal_moveOk hx'.1) hx'.2

/-! Session lemmas. -/

theorem push_undo (s : GameSession) (m : Move) : (s.push m).undo = .ok s := by
  unfold GameSession.push GameSession.undo
  split
  · rename_i heq
    exact absurd heq (by simp)
  · simp only [List.dropLast_concat]

theorem push_current (s : GameSession) (m : Move) :
    (s.push m).current = applyMove s.current m := by
  unfold GameSession.push GameSession.current
  simp only [List.getLast?_concat]

theorem pseudo_castleK (pos : Position) (m : Move) (hm : m ∈ pseudoLegalMoves pos)
    (hc : isCastleKMove pos m = true) :
    m = if pos.sideToMove = .white then ⟨4, 6, none⟩ else ⟨60, 62, none⟩ := by
  obtain ⟨sq, hsq, pc, hpc, hcol, hmm⟩ := mem_pseudo hm
  have hfrom : m.fromSq = sq := pieceMoves_fromSq hmm
  subst hfrom
  unfold isCastleKMove at hc
  simp only [Bool.and_eq_true, decide_eq_true_eq] at hc
  obtain ⟨⟨hk, hfile⟩, hrank⟩ := hc
  have hpk : pc.ptype = PieceType.king := by
    unfold pieceTypeAt at hk
    rw [hpc, Option.map_some'] at hk
    injection hk
  rw [hpk] at hmm
  rcases List.mem_append.mp hmm with h' | h'
  · exfalso
    obtain ⟨-, -, -, d, hd, hmk⟩ := leapMoves_mem h'
    obtain ⟨-, hfz, -⟩ := mkSq_some hmk
    have hb : ∀ d2 ∈ kingOffsets, d2.1 ≤ 1 ∧ -1 ≤ d2.1 := by decide
    obtain ⟨hb1, hb2⟩ := hb d hd
    unfold fileZ at hfz
    omega
  · rcases (castleMoves_mem h').2 with ⟨hw, -, hm1 | hm1⟩ | ⟨hb, -, hm1 | hm1⟩ <;> subst hm1
    · rw [if_pos hw]
    · exact absurd hfile (by decide)
    · rw [hb]
      rfl
    · exact absurd hfile (by decide)

theorem pseudo_castleQ (pos : Position) (m : Move) (hm : m ∈ pseudoLegalMoves pos)
    (hc : isCastleQMove pos m = true) :
    m = if pos.sideToMove = .white then ⟨4, 2, none⟩ else ⟨60, 58, none⟩ := by
  obtain ⟨sq, hsq, pc, hpc, hcol, hmm⟩ := mem_pseudo hm
  have hfrom : m.fromSq = sq := pieceMoves_fromSq hmm
  subst hfrom
  unfold isCastleQMove at hc
  simp only [Bool.and_eq_true, decide_eq_true_eq] at hc
  obtain ⟨⟨hk, hfile⟩, hrank⟩ := hc
  have hpk : pc.ptype = PieceType.king := by
    unfold pieceTypeAt at hk
    rw [hpc, Option.map_some'] at hk
    injection hk
  rw [hpk] at hmm
  rcases List.mem_append.mp hmm with h' | h'
  · exfalso
    obtain ⟨-, -, -, d, hd, hmk⟩ := leapMoves_mem h'
    obtain ⟨-, hfz, -⟩ := mkSq_some hmk
    have hb : ∀ d2 ∈ kingOffsets, d2.1 ≤ 1 ∧ -1 ≤ d2.1 := by decide
    obtain ⟨hb1, hb2⟩ := hb d hd
    unfold fileZ at hfz
    omega
  · rcases (castleMoves_mem h').2 with ⟨hw, -, hm1 | hm1⟩ | ⟨hb, -, hm1 | hm1⟩ <;> subst hm1
    · exact absurd hfile (by decide)
    · rw [if_pos hw]
    · exact absurd hfile (by decide)
    · rw [hb]
      rfl

theorem sanDecode_sanEncode (pos : Position) (m : Move) (h : m ∈ legalMoves pos) :
    sanDecode pos (sanEncode pos m) = .ok m := by
  have hok := legal_moveOk h
  have hsfx := checkSuffix_cases pos m
  by_cases hck : isCastleKMove pos m = true
  · have henc : sanEncode pos m = String.mk (['O', '-', 'O'] ++ checkSuffix pos m) := by
      unfold sanEncode
      rw [if_pos hck]
    rw [henc]
    unfold sanDecode
    rw [sanParseTok_castleShort _ hsfx]
    have htarget := pseudo_castleK pos m (legal_sub_pseudo h) hck
    refine pickUnique_ok (dedup_eq_single (List.mem_filter.mpr ⟨h, hck⟩) ?_)
    intro x hx
    have hx' := List.mem_filter.mp hx
    rw [pseudo_castleK pos x (legal_sub_pseudo hx'.1) hx'.2, ← htarget]
  · by_cases hcq : isCastleQMove pos m = true
    · have henc : sanEncode pos m =
          String.mk (['O', '-', 'O', '-', 'O'] ++ checkSuffix pos m) := by
        unfold sanEncode
        rw [if_neg hck, if_pos hcq]
      rw [henc]
      unfold sanDecode
      rw [sanParseTok_castleLong _ hsfx]
      have htarget := pseudo_castleQ pos m (legal_sub_pseudo h) hcq
      refine pickUnique_ok (dedup_eq_single (List.mem_filter.mpr ⟨h, hcq⟩) ?_)
      intro x hx
      have hx' := List.mem_filter.mp hx
      rw [pseudo_castleQ pos x (legal_sub_pseudo hx'.1) hx'.2, ← htarget]
    · have henc : sanEncode pos m =
          String.mk (renderPattern (choosePattern pos m) ++ checkSuffix pos m) := by
        unfold sanEncode
        rw [if_neg hck, if_neg hcq]
      rw [henc]
      unfold sanDecode
      rw [sanParseTok_render _ (PatOk_choose pos m hok) _ hsfx]
      exact pickUnique_ok (choose_filter_dedup pos m h)

/-! PGN replay lemmas. -/

theorem replay_encode (hist : List (Move × Position)) :
    ∀ s : GameSession, validFrom s.current hist = true →
      replaySan s (sanTokens s.current hist) = .ok ⟨s.initial, s.history ++ hist⟩ := by
  induction hist with
  | nil =>
    intro s hv
    show Except.ok s = Except.ok ⟨s.initial, s.history ++ []⟩
    rw [List.append_nil]
  | cons mp rest ih =>
    intro s hv
    obtain ⟨m, p⟩ := mp
    unfold validFrom at hv
    simp only [Bool.and_eq_true, decide_eq_true_eq] at hv
    obtain ⟨⟨hm, hp⟩, hrest⟩ := hv
    show (match sanDecode s.current (sanEncode s.current m) with
      | .error e => Except.error e
      | .ok mv => replaySan (s.push mv) (sanTokens p rest)) =
        Except.ok ⟨s.initial, s.history ++ (m, p) :: rest⟩
    rw [sanDecode_sanEncode s.current m hm]
    show replaySan (s.push m) (sanTokens p rest) =
      Except.ok (GameSession.mk s.initial (s.history ++ (m, p) :: rest))
    have hcur : (s.push m).current = p := by
      rw [push_current, ← hp]
    have hv2 : validFrom (s.push m).current rest = true := by
      rw [hcur]
      exact hrest
    have := ih (s.push m) hv2
    rw [hcur] at this
    rw [this]
    show Except.ok (GameSession.mk s.initial ((s.history ++ [(m, applyMove s.current m)]) ++ rest)) =
      Except.ok (GameSession.mk s.initial (s.history ++ (m, p) :: rest))
    rw [← hp, List.append_assoc, List.singleton_append]

/-! Claim theorems. -/

/-- Claim C1: for every Position and every move in its legal-move list
(the list `board.legal_moves` provides for the `legal` command),
applying the move yields a Position in which the moving side's own king
is not in check. -/
theorem claim_C1 (pos : Position) (m : Move) (h : m ∈ legalMoves pos) :
    inCheck (applyMove pos m) pos.sideToMove = false := by
  unfold legalMoves at h
  simpa using (List.mem_filter.mp h).2

theorem claim_C1_witness :
    (⟨12, 28, none⟩ : Move) ∈ legalMoves startPos ∧
      inCheck (applyMove startPos ⟨12, 28, none⟩) startPos.sideToMove = false :=
  ⟨by decide, claim_C1 startPos ⟨12, 28, none⟩ (by decide)⟩

/-- Claim C2, counterexample: the input string Ke2 is syntactically
valid SAN (and not legal at the initial position), yet the program's
move interpretation reports the malformed-format error, not the
illegal-move error, because `main` retries any failed SAN as UCI and
Ke2 is not valid UCI; the session is unchanged. -/
theorem claim_C2_counterexample :
    (sanParseTok "Ke2").isSome = true ∧
      sanDecode startSession.current "Ke2" = .error .illegalMove ∧
      moveStep startSession "Ke2" = (startSession, .errParse) ∧
      TextOutcome.errParse ≠ TextOutcome.errIllegal := by
  refine ⟨by decide, by decide, by decide, by decide⟩

/-- Claim C2, amended: a failed move input always leaves the session
exactly unchanged; the IllegalMove report is produced when the input
fails SAN interpretation but parses as UCI and is not a member of the
current legal moves (an input whose SAN interpretation fails only on
legality and that is not valid UCI yields the format error instead). -/
theorem claim_C2 (s : GameSession) (raw : String) (m : Move) (e : MoveError)
    (hsan : sanDecode s.current raw = .error e)
    (huci : uciDecode raw = .ok m) (hleg : m ∉ legalMoves s.current) :
    moveStep s raw = (s, .errIllegal) ∧
      ∀ r : String, ((moveStep s r).2 = .errParse ∨ (moveStep s r).2 = .errIllegal) →
        (moveStep s r).1 = s := by
  constructor
  · unfold moveStep
    rw [hsan, huci]
    show (if m ∈ legalMoves s.current then (s.push m, TextOutcome.okUci m)
      else (s, TextOutcome.errIllegal)) = (s, TextOutcome.errIllegal)
    rw [if_neg hleg]
  · intro r
    unfold moveStep
    split
    · intro hr
      rcases hr with hr | hr <;> simp at hr
    · split
      · intro _; rfl
      · split
        · intro hr
          rcases hr with hr | hr <;> simp at hr
        · intro _; rfl

theorem claim_C2_witness :
    sanDecode startSession.current "e2e5" = .error .illegalMove ∧
      uciDecode "e2e5" = .ok ⟨12, 36, none⟩ ∧
      (⟨12, 36, none⟩ : Move) ∉ legalMoves startSession.current ∧
      moveStep startSession "e2e5" = (startSession, .errIllegal) :=
  ⟨by decide, by decide, by decide,
    (claim_C2 startSession "e2e5" ⟨12, 36, none⟩ .illegalMove (by decide) (by decide)
      (by decide)).1⟩

/-- Claim C3: undo fails with NoHistory exactly when the history is
empty; otherwise it truncates the history by one ply and restores the
prior snapshot, and it is an exact inverse of apply: after a successful
apply, undo returns the original session (hence the same current
Position). -/
theorem claim_C3 (s : GameSession) (m : Move) :
    (s.undo = .error .noHistory ↔ s.history = []) ∧
      (s.history ≠ [] → s.undo = .ok ⟨s.initial, s.history.dropLast⟩) ∧
      ∀ t, s.applyMv m = .ok t → t.undo = .ok s ∧ t.undo = .ok ⟨s.initial, t.history.dropLast⟩ := by
  refine ⟨?_, ?_, ?_⟩
  · unfold GameSession.undo
    constructor
    · intro h
      split at h
      · assumption
      · cases h
    · intro h
      rw [h]
  · intro h
    unfold GameSession.undo
    split
    · exact absurd (by assumption) h
    · rfl
  · intro t ht
    unfold GameSession.applyMv at ht
    split at ht
    · injection ht with ht
      subst ht
      refine ⟨push_undo s m, ?_⟩
      rw [push_undo s m]
      unfold GameSession.push
      simp only [List.dropLast_concat]
    · cases ht

theorem claim_C3_witness :
    startSession.applyMv ⟨12, 28, none⟩ = .ok (startSession.push ⟨12, 28, none⟩) ∧
      (startSession.push ⟨12, 28, none⟩).undo = .ok startSession :=
  ⟨by decide,
    ((claim_C3 startSession ⟨12, 28, none⟩).2.2 (startSession.push ⟨12, 28, none⟩)
      (by decide)).1⟩

/-- Claim C5: the automatic game-over test (which selects the PGN
Result token in `save_pgn`) holds exactly for checkmate, stalemate and
insufficient material; in particular a state in which the fifty-move
rule or threefold repetition is claimable but none of those three hold
is not treated as terminal and keeps the Result token at the asterisk. -/
theorem claim_C5 (pos : Position) :
    (isGameOver pos = true ↔
      (isCheckmate pos = true ∨ isStalemate pos = true ∨ insufficientMaterial pos = true)) ∧
      (isCheckmate pos = false → isStalemate pos = false → insufficientMaterial pos = false →
        isGameOver pos = false ∧ resultToken pos = "*") := by
  constructor
  · unfold isGameOver
    simp [Bool.or_eq_true, or_assoc]
  · intro h1 h2 h3
    have hg : isGameOver pos = false := by
      unfold isGameOver
      rw [h1, h2, h3]
      rfl
    refine ⟨hg, ?_⟩
    unfold resultToken
    rw [hg]
    rfl

theorem claim_C5_witness :
    canClaimFiftyMoves fiftyPos = true ∧ isGameOver fiftyPos = false ∧
      resultToken fiftyPos = "*" :=
  ⟨by decide, (claim_C5 fiftyPos).2 (by decide) (by decide) (by decide)⟩

/-- Claim C6: the move-interpretation step of `main` tries SAN first:
whenever SAN interpretation succeeds the resulting move is applied and
tagged as the SAN reading (UCI is never consulted), and every input
yields either a success or a distinguishable error value. -/
theorem claim_C6 (s : GameSession) (raw : String) (m : Move)
    (h : sanDecode s.current raw = .ok m) :
    moveStep s raw = (s.push m, .okSan m) := by
  unfold moveStep
  rw [h]

theorem claim_C6_witness :
    sanDecode startSession.current "e2e4" = .ok ⟨12, 28, none⟩ ∧
      uciDecode "e2e4" = .ok ⟨12, 28, none⟩ ∧
      moveStep startSession "e2e4" = (startSession.push ⟨12, 28, none⟩, .okSan ⟨12, 28, none⟩) :=
  ⟨by decide, by decide, claim_C6 startSession "e2e4" ⟨12, 28, none⟩ (by decide)⟩

/-- Claim C9: the post-move report of `main` is an elif chain, so at
most one outcome is selected, in the priority order checkmate,
stalemate, insufficient material, fifty-move claim, threefold claim;
when the fifty-move rule and threefold repetition are both claimable
(and no automatic terminal state holds) only the fifty-move claim is
reported. -/
theorem claim_C9 (pos : Position) (snaps : List Position)
    (h1 : isCheckmate pos = false) (h2 : isStalemate pos = false)
    (h3 : insufficientMaterial pos = false) (h4 : canClaimFiftyMoves pos = true)
    (h5 : canClaimThreefold pos snaps = true) :
    postMoveReport pos snaps = some .drawFiftyMoveClaimable := by
  unfold postMoveReport
  rw [h1, h2, h3, h4]
  rfl

theorem claim_C9_witness :
    canClaimFiftyMoves fiftyPos = true ∧
      canClaimThreefold fiftyPos [fiftyPos, fiftyPos, fiftyPos] = true ∧
      postMoveReport fiftyPos [fiftyPos, fiftyPos, fiftyPos] = some .drawFiftyMoveClaimable :=
  ⟨by decide, by decide,
    claim_C9 fiftyPos [fiftyPos, fiftyPos, fiftyPos] (by decide) (by decide) (by decide)
      (by decide) (by decide)⟩

/-- Claim C10: a load request whose PGN decoding fails (missing file,
no valid game, or any token that fails to parse or apply) returns no
game and leaves the current session exactly unchanged; the session is
replaced exactly when decoding succeeds. -/
theorem claim_C10 (s : GameSession) (c : Option PgnGame) :
    (loadPgn c = none → loadStep s c = s) ∧
      (∀ t, loadPgn c = some t → loadStep s c = t) ∧
      ∀ g e, c = some g → pgnDecode g = .error e → loadPgn c = none := by
  refine ⟨?_, ?_, ?_⟩
  · intro h
    unfold loadStep
    rw [h]
  · intro t h
    unfold loadStep
    rw [h]
  · intro g e hc he
    subst hc
    show (match pgnDecode g with
      | .ok s => some s
      | .error _ => none) = none
    rw [he]

theorem claim_C10_witness :
    loadPgn (none : Option PgnGame) = none ∧ loadStep startSession none = startSession :=
  ⟨rfl, (claim_C10 startSession none).1 rfl⟩

/-- Claim C4: from the initial position the UCI input sequence f2f3,
e7e5, g2g4, d8h4 produces a Position classified as Checkmate lost by
White (won by Black), and the PGN Result header written for that state
is 0-1. -/
theorem claim_C4 :
    foolsSession.current.sideToMove = .white ∧
      detectOutcome foolsSession.current foolsSession.snapshots = .checkmate .black ∧
      (pgnEncode foolsSession defaultHeaders).result = "0-1" :=
  ⟨rfl, rfl, rfl⟩

/-- Claim C7: PGN decode of the PGN encode of a session (one whose
history replays legally from the standard initial position, as every
session the program builds does) succeeds and returns the session
itself — in particular the decoded session's current Position equals
the original's and the move-history lists are identical. -/
theorem claim_C7 (s : GameSession) (h : PgnHeaders) (h0 : s.initial = startPos)
    (hv : s.valid = true) :
    pgnDecode (pgnEncode s h) = .ok s := by
  obtain ⟨si, sh⟩ := s
  have h0' : si = startPos := h0
  subst h0'
  have hv' : validFrom startSession.current sh = true := hv
  have hrep := replay_encode sh startSession hv'
  show replaySan startSession (sanTokens startPos sh) = Except.ok (GameSession.mk startPos sh)
  have hcur : startSession.current = startPos := rfl
  rw [hcur] at hrep
  rw [hrep]
  show Except.ok (GameSession.mk startPos ([] ++ sh)) = Except.ok (GameSession.mk startPos sh)
  rw [List.nil_append]

theorem claim_C7_witness :
    twoPlySession.initial = startPos ∧ twoPlySession.valid = true ∧
      pgnDecode (pgnEncode twoPlySession defaultHeaders) = .ok twoPlySession :=
  ⟨rfl, by decide, claim_C7 twoPlySession defaultHeaders rfl (by decide)⟩

/-- Claim C8: decoding the UCI encoding of any legal move yields
exactly that move. -/
theorem claim_C8 (pos : Position) (m : Move) (h : m ∈ legalMoves pos) :
    uciDecode (uciEncode m) = .ok m := by
  obtain ⟨hf, ht, -, hpr⟩ := legal_moveOk h
  obtain ⟨mf, mt, mp⟩ := m
  have hff := sqOfChars_round mf hf
  have htt := sqOfChars_round mt ht
  rcases mp with _ | t
  · have hstep : uciDecode (uciEncode ⟨mf, mt, none⟩) =
        (match sqOfChars (Char.ofNat (97 + mf % 8)) (Char.ofNat (49 + mf / 8 % 8)),
               sqOfChars (Char.ofNat (97 + mt % 8)) (Char.ofNat (49 + mt / 8 % 8)) with
         | some s1, some s2 => Except.ok (⟨s1, s2, none⟩ : Move)
         | _, _ => Except.error MoveError.parseError) := rfl
    rw [hstep, hff, htt]
  · have hval : promoOfCharLower (promoCharLower t) = some t := by
      rcases hpr.2.2 with h' | h' | h' | h' <;> subst h' <;> rfl
    have hstep : uciDecode (uciEncode ⟨mf, mt, some t⟩) =
        (match sqOfChars (Char.ofNat (97 + mf % 8)) (Char.ofNat (49 + mf / 8 % 8)),
               sqOfChars (Char.ofNat (97 + mt % 8)) (Char.ofNat (49 + mt / 8 % 8)),
               promoOfCharLower (promoCharLower t) with
         | some s1, some s2, some pt => Except.ok (⟨s1, s2, some pt⟩ : Move)
         | _, _, _ => Except.error MoveError.parseError) := rfl
    rw [hstep, hff, htt, hval]

theorem claim_C8_witness :
    (⟨12, 28, none⟩ : Move) ∈ legalMoves startPos ∧
      uciEncode ⟨12, 28, none⟩ = "e2e4" ∧
      uciDecode (uciEncode ⟨12, 28, none⟩) = .ok ⟨12, 28, none⟩ :=
  ⟨by decide, by decide, claim_C8 startPos ⟨12, 28, none⟩ (by decide)⟩

end CliChess
